import Mathlib

/-!
Shallow embedding of the realtime bus-tracking server (`src/app.js`).

The server keeps two pieces of state:
  * `connectedUsers` — a JS `Map` from socket id to a user record
    `{ id, isBus, location }` (the stored record always carries its own key
    in its `id` field);
  * `busUser` — either `null` or a *copy* (object spread) of the user record
    that was current at the moment of the last promotion.

Socket ids are modelled as `Nat`.  A JS `Map` keyed by socket id whose values
carry their key in the `id` field is modelled as a `List User`, looked up by
the `id` field; `Map.set` on an existing key replaces the value in place
(keeping insertion order), `Map.set` on a fresh key appends, `Map.delete`
filters, `Array.from(map.values())` is the list itself.

Each socket event handler becomes a function `ServerState → ... →
ServerState × List Msg`, where the returned messages record, in emission
order, the payload and the set of socket ids the emit was addressed to:
`io.emit` is addressed to every id in the registry at the moment of the
emit, `io.to(x).emit` and `socket.emit` to the single target.
-/

namespace RealtimeTracking

/-- A location payload as received from a client.  The coordinates are
optional so that malformed reports (missing numeric coordinates) can be
represented: the server itself never inspects the fields. -/
structure LocData where
  lat : Option Int
  lon : Option Int
deriving DecidableEq, Repr

/-- Whether the payload carries both numeric coordinates. -/
def LocData.hasNumericCoords (d : LocData) : Bool :=
  d.lat.isSome && d.lon.isSome

/-- A registry entry: `{ id: socket.id, isBus: false, location: null }` at
creation time (src/app.js lines 23-27). -/
structure User where
  id : Nat
  isBus : Bool
  location : Option LocData
deriving DecidableEq, Repr

/-- The JS `connectedUsers.get(i)` — look a user up by its id field. -/
def mget (m : List User) (i : Nat) : Option User :=
  m.find? (fun u => u.id == i)

/-- The JS `connectedUsers.has(i)`. -/
def mhas (m : List User) (i : Nat) : Bool :=
  (mget m i).isSome

/-- The JS `connectedUsers.set(i, u)` — replace in place when the key is present
(JS `Map.set` keeps the original insertion position), append otherwise. -/
def mset (m : List User) (i : Nat) (u : User) : List User :=
  if mhas m i then m.map (fun v => if v.id == i then u else v) else m ++ [u]

/-- The JS `connectedUsers.delete(i)`. -/
def mdel (m : List User) (i : Nat) : List User :=
  m.filter (fun u => u.id != i)

/-- The ids currently registered, in insertion order. -/
def ids (m : List User) : List Nat :=
  m.map (fun u => u.id)

/-- An outbound event payload (src/app.js emits). -/
inductive Payload where
  | usersList (users : List User) (currentBus : Option User)
  | receiveLocation (id : Nat) (isBus : Bool) (data : LocData)
  | busStatusChanged (isBus : Bool)
  | busUserChanged (busUserId : Option Nat) (busUser : Option User)
  | userDisconnected (id : Nat)
deriving DecidableEq, Repr

/-- One emitted message: the payload plus the socket ids it was addressed
to at the moment of the emit. -/
structure Msg where
  recipients : List Nat
  payload : Payload
deriving DecidableEq, Repr

/-- The whole server state: `connectedUsers` and `busUser`
(src/app.js lines 18-19). -/
structure ServerState where
  connectedUsers : List User
  busUser : Option User
deriving DecidableEq, Repr

/-- The initial state: `let connectedUsers = new Map(); let busUser = null;` -/
def initState : ServerState :=
  { connectedUsers := [], busUser := none }

/-- The `io.on('connection', ...)` body before the per-socket handlers are
installed (src/app.js lines 21-32): register the socket, then send it the
`users-list` snapshot built from the registry *after* registration and the
current `busUser`. -/
def onConnection (s : ServerState) (sid : Nat) : ServerState × List Msg :=
  let users := mset s.connectedUsers sid { id := sid, isBus := false, location := none }
  ({ connectedUsers := users, busUser := s.busUser },
   [{ recipients := [sid], payload := .usersList users s.busUser }])

/-- The `send-location` handler (src/app.js lines 34-45): store the raw
payload as the sender's location when the sender is registered, then
`io.emit` a `receive-location` to everyone (the emit is outside the guard). -/
def onSendLocation (s : ServerState) (sid : Nat) (data : LocData) : ServerState × List Msg :=
  let user := mget s.connectedUsers sid
  let users :=
    match user with
    | some u => mset s.connectedUsers sid { u with location := some data }
    | none => s.connectedUsers
  ({ connectedUsers := users, busUser := s.busUser },
   [{ recipients := ids users,
      payload := .receiveLocation sid (match user with | some u => u.isBus | none => false) data }])

/-- The `set-as-bus` handler (src/app.js lines 47-62): if a bus is
designated and still registered, demote it (role to rider, `bus-status-changed`
to it alone); then, if the requester is registered, promote it, store a copy
of its record in `busUser`, confirm to it, and `io.emit` the new designation. -/
def onSetAsBus (s : ServerState) (sid : Nat) : ServerState × List Msg :=
  let demoted : List User × List Msg :=
    match s.busUser with
    | some b =>
      if mhas s.connectedUsers b.id then
        match mget s.connectedUsers b.id with
        | some prevBus =>
          (mset s.connectedUsers b.id { prevBus with isBus := false },
           [{ recipients := [b.id], payload := .busStatusChanged false }])
        | none => (s.connectedUsers, [])
      else (s.connectedUsers, [])
    | none => (s.connectedUsers, [])
  match mget demoted.1 sid with
  | some user =>
    let promoted : User := { user with isBus := true }
    let users := mset demoted.1 sid promoted
    ({ connectedUsers := users, busUser := some promoted },
     demoted.2 ++
       [{ recipients := [sid], payload := .busStatusChanged true },
        { recipients := ids users, payload := .busUserChanged (some sid) (some promoted) }])
  | none => ({ connectedUsers := demoted.1, busUser := s.busUser }, demoted.2)

/-- The `remove-bus` handler (src/app.js lines 64-75): only when the caller
is the designated bus, set its role to rider, clear `busUser`, `io.emit` the
cleared designation, then confirm to the caller. -/
def onRemoveBus (s : ServerState) (sid : Nat) : ServerState × List Msg :=
  match s.busUser with
  | some b =>
    if b.id == sid then
      let users :=
        match mget s.connectedUsers sid with
        | some user => mset s.connectedUsers sid { user with isBus := false }
        | none => s.connectedUsers
      ({ connectedUsers := users, busUser := none },
       [{ recipients := ids users, payload := .busUserChanged none none },
        { recipients := [sid], payload := .busStatusChanged false }])
    else (s, [])
  | none => (s, [])

/-- The `disconnect` handler (src/app.js lines 77-85): if the departing
socket is the designated bus, clear `busUser` and `io.emit` the cleared
designation (before the registry delete, so the departing id is still among
the recipients); then delete the registry entry and `io.emit`
`user-disconnected`. -/
def onDisconnect (s : ServerState) (sid : Nat) : ServerState × List Msg :=
  let cleared : Option User × List Msg :=
    match s.busUser with
    | some b =>
      if b.id == sid then
        (none, [{ recipients := ids s.connectedUsers, payload := .busUserChanged none none }])
      else (s.busUser, [])
    | none => (s.busUser, [])
  let users := mdel s.connectedUsers sid
  ({ connectedUsers := users, busUser := cleared.1 },
   cleared.2 ++ [{ recipients := ids users, payload := .userDisconnected sid }])

/-- An inbound event, tagged with the socket id it arrives on. -/
inductive Event where
  | connect (sid : Nat)
  | sendLocation (sid : Nat) (data : LocData)
  | setAsBus (sid : Nat)
  | removeBus (sid : Nat)
  | disconnect (sid : Nat)
deriving DecidableEq, Repr

/-- Dispatch one inbound event to its handler. -/
def handle (s : ServerState) : Event → ServerState × List Msg
  | .connect sid => onConnection s sid
  | .sendLocation sid d => onSendLocation s sid d
  | .setAsBus sid => onSetAsBus s sid
  | .removeBus sid => onRemoveBus s sid
  | .disconnect sid => onDisconnect s sid

/-- The transport constraint of socket.io: a `connection` event carries a
fresh socket id, and every per-socket event (`send-location`, `set-as-bus`,
`remove-bus`, `disconnect`) can only arrive while its socket is connected,
i.e. between its `connection` and its `disconnect` — which is exactly while
its id is in `connectedUsers`. -/
def permitted (s : ServerState) : Event → Bool
  | .connect sid => !(mhas s.connectedUsers sid)
  | .sendLocation sid _ => mhas s.connectedUsers sid
  | .setAsBus sid => mhas s.connectedUsers sid
  | .removeBus sid => mhas s.connectedUsers sid
  | .disconnect sid => mhas s.connectedUsers sid

/-- States reachable from server start by any permitted event sequence;
observation points sit between event handlers (the dispatch is
single-threaded). -/
inductive Reachable : ServerState → Prop where
  | init : Reachable initState
  | step {s : ServerState} {e : Event} :
      Reachable s → permitted s e = true → Reachable (handle s e).1

/-- Run a list of events from a state, keeping only the final state. -/
def execFrom (s : ServerState) (es : List Event) : ServerState :=
  es.foldl (fun t e => (handle t e).1) s

/-- All events of the list are permitted when run in order. -/
def permittedRun (s : ServerState) : List Event → Bool
  | [] => true
  | e :: es => permitted s e && permittedRun (handle s e).1 es

/-! ### The bus invariant

`busOk m o` says that the `busUser` designation `o` and the role flags in
the registry `m` agree: no designation means no connection has `isBus`,
and a designation means its id names a registered connection with `isBus`
and nobody else has `isBus`. -/

def busOk (m : List User) : Option User → Prop
  | none => ∀ u ∈ m, u.isBus = false
  | some b => (∃ u ∈ m, u.id = b.id ∧ u.isBus = true) ∧
      ∀ u ∈ m, u.isBus = true → u.id = b.id

instance busOkDecidable (m : List User) : (o : Option User) → Decidable (busOk m o)
  | none => inferInstanceAs (Decidable (∀ u ∈ m, u.isBus = false))
  | some b => inferInstanceAs (Decidable ((∃ u ∈ m, u.id = b.id ∧ u.isBus = true) ∧
      ∀ u ∈ m, u.isBus = true → u.id = b.id))

/-- The server-state invariant: registered ids are pairwise distinct, and
the `busUser` designation agrees with the `isBus` flags. -/
def Inv (s : ServerState) : Prop :=
  (ids s.connectedUsers).Nodup ∧ busOk s.connectedUsers s.busUser

instance (s : ServerState) : Decidable (Inv s) :=
  inferInstanceAs (Decidable (_ ∧ _))

/-- Concrete states used to witness the claim theorems. -/
def c1State : ServerState :=
  { connectedUsers := [⟨0, false, none⟩, ⟨1, false, none⟩], busUser := none }

/-- Two connections, connection 0 designated bus (its stored snapshot has no
location), connection 1 a rider. -/
def twoUsersBus0 : ServerState :=
  { connectedUsers := [⟨0, true, none⟩, ⟨1, false, none⟩], busUser := some ⟨0, true, none⟩ }

/-- Connection 0 designated bus whose registry entry has since been updated
with a location, so the `busUser` snapshot is stale. -/
def staleBusState : ServerState :=
  { connectedUsers := [⟨0, true, some ⟨some 7, some 8⟩⟩, ⟨1, false, none⟩],
    busUser := some ⟨0, true, none⟩ }

/-- The run: 0 and 1 connect, 0 becomes bus, 0 reports a location. -/
def s9State : ServerState :=
  execFrom initState [.connect 0, .connect 1, .setAsBus 0, .sendLocation 0 ⟨some 1, some 2⟩]

/-- The run: 0 and 1 connect, 0 becomes bus, then 1 takes the role over. -/
def handoffState : ServerState :=
  execFrom initState [.connect 0, .connect 1, .setAsBus 0, .setAsBus 1]

theorem reachable_execFrom {s : ServerState} (hs : Reachable s) :
    ∀ es : List Event, permittedRun s es = true → Reachable (execFrom s es) := by
  intro es
  induction es generalizing s with
  | nil => intro _; exact hs
  | cons e es ih =>
    intro h
    simp only [permittedRun, Bool.and_eq_true] at h
    exact ih (Reachable.step hs h.1) h.2

/-! ### Registry lemmas -/

theorem mget_eq_some {m : List User} {i : Nat} {u : User} (h : mget m i = some u) :
    u ∈ m ∧ u.id = i :=
  ⟨List.mem_of_find?_eq_some h, by simpa using List.find?_some h⟩

theorem mhas_iff {m : List User} {i : Nat} : mhas m i = true ↔ ∃ u ∈ m, u.id = i := by
  rw [mhas, mget, List.find?_isSome]
  simp

theorem mem_ids {m : List User} {i : Nat} : i ∈ ids m ↔ ∃ u ∈ m, u.id = i := by
  simp [ids, List.mem_map]

theorem mhas_eq_mem_ids {m : List User} {i : Nat} : mhas m i = true ↔ i ∈ ids m := by
  rw [mhas_iff, mem_ids]

theorem mget_eq_none_of_not_mhas {m : List User} {i : Nat} (h : mhas m i = false) :
    mget m i = none := by
  rw [mhas] at h
  exact Option.not_isSome_iff_eq_none.mp (by simp [h])

theorem find?_map_replace {m : List User} {i : Nat} {u : User} (hu : u.id = i) :
    List.find? (fun v => v.id == i) (m.map (fun v => if v.id == i then u else v)) =
      (List.find? (fun v => v.id == i) m).map (fun _ => u) := by
  induction m with
  | nil => rfl
  | cons v t ih =>
    rw [List.map_cons]
    by_cases h : v.id = i
    · rw [if_pos (by simpa using h), List.find?_cons_of_pos _ (by simpa using hu),
        List.find?_cons_of_pos _ (by simpa using h)]
      rfl
    · rw [if_neg (by simpa using h), List.find?_cons_of_neg _ (by simpa using h),
        List.find?_cons_of_neg _ (by simpa using h)]
      exact ih

theorem find?_map_keep {m : List User} {i j : Nat} {u : User} (hu : u.id = i) (hne : j ≠ i) :
    List.find? (fun v => v.id == j) (m.map (fun v => if v.id == i then u else v)) =
      List.find? (fun v => v.id == j) m := by
  induction m with
  | nil => rfl
  | cons v t ih =>
    rw [List.map_cons]
    by_cases h : v.id = i
    · rw [if_pos (by simpa using h), List.find?_cons_of_neg _ (by simp [hu]; omega),
        List.find?_cons_of_neg _ (by simp [h]; omega)]
      exact ih
    · rw [if_neg (by simpa using h)]
      by_cases hj : v.id = j
      · rw [List.find?_cons_of_pos _ (by simpa using hj),
          List.find?_cons_of_pos _ (by simpa using hj)]
      · rw [List.find?_cons_of_neg _ (by simpa using hj),
          List.find?_cons_of_neg _ (by simpa using hj)]
        exact ih

theorem mget_mset_self {m : List User} {i : Nat} {u : User} (hu : u.id = i) :
    mget (mset m i u) i = some u := by
  rw [mset]
  by_cases h : mhas m i
  · obtain ⟨w, hw⟩ := Option.isSome_iff_exists.mp h
    rw [if_pos h, mget, find?_map_replace hu]
    rw [mget] at hw
    rw [hw]
    rfl
  · rw [if_neg h, mget, List.find?_append]
    have hnone : List.find? (fun v => v.id == i) m = none := by
      have := mget_eq_none_of_not_mhas (m := m) (i := i) (by simpa using h)
      rwa [mget] at this
    rw [hnone]
    simp [hu]

theorem mget_mset_ne {m : List User} {i j : Nat} {u : User} (hu : u.id = i) (hne : j ≠ i) :
    mget (mset m i u) j = mget m j := by
  rw [mset]
  by_cases h : mhas m i
  · rw [if_pos h, mget, find?_map_keep hu hne, mget]
  · rw [if_neg h, mget, List.find?_append, mget]
    have : List.find? (fun v => v.id == j) [u] = none := by
      simp [hu, Ne.symm hne]
    rw [this, Option.or_none]

theorem ids_mset_of_mhas {m : List User} {i : Nat} {u : User} (hu : u.id = i)
    (h : mhas m i = true) : ids (mset m i u) = ids m := by
  rw [mset, if_pos h, ids, ids, List.map_map]
  apply List.map_congr_left
  intro v _
  by_cases hvi : v.id = i
  · simp [hvi, hu]
  · simp [hvi]

theorem ids_mset_of_not_mhas {m : List User} {i : Nat} {u : User}
    (h : mhas m i = false) : ids (mset m i u) = ids m ++ [u.id] := by
  rw [mset, if_neg (by simp [h]), ids, ids, List.map_append]
  rfl

theorem mem_mset {m : List User} {i : Nat} {u v : User} (h : mhas m i = true)
    (hv : v ∈ mset m i u) : v = u ∨ (v ∈ m ∧ v.id ≠ i) := by
  rw [mset, if_pos h] at hv
  obtain ⟨w, hw, hfw⟩ := List.mem_map.mp hv
  by_cases hwi : w.id = i
  · left
    rw [if_pos (by simpa using hwi)] at hfw
    exact hfw.symm
  · right
    rw [if_neg (by simpa using hwi)] at hfw
    exact hfw ▸ ⟨hw, hwi⟩

theorem mem_mset_of_not_mhas {m : List User} {i : Nat} {u v : User}
    (h : mhas m i = false) : v ∈ mset m i u ↔ v ∈ m ∨ v = u := by
  rw [mset, if_neg (by simp [h])]
  simp

theorem mem_mset_of_ne {m : List User} {i : Nat} {u v : User} (hv : v ∈ m)
    (hne : v.id ≠ i) : v ∈ mset m i u := by
  rw [mset]
  by_cases h : mhas m i
  · rw [if_pos h]
    exact List.mem_map.mpr ⟨v, hv, by rw [if_neg (by simpa using hne)]⟩
  · rw [if_neg h]
    exact List.mem_append_left _ hv

theorem self_mem_mset {m : List User} {i : Nat} {u : User} (hu : u.id = i) :
    u ∈ mset m i u :=
  (mget_eq_some (mget_mset_self hu)).1

theorem mem_mdel {m : List User} {i : Nat} {v : User} :
    v ∈ mdel m i ↔ v ∈ m ∧ v.id ≠ i := by
  rw [mdel, List.mem_filter]
  simp

theorem mget_mdel_self {m : List User} {i : Nat} : mget (mdel m i) i = none := by
  rw [mget, List.find?_eq_none]
  intro v hv
  have := (mem_mdel.mp hv).2
  simpa using this

theorem nodup_ids_mdel {m : List User} {i : Nat} (h : (ids m).Nodup) :
    (ids (mdel m i)).Nodup := by
  rw [ids] at h ⊢
  rw [mdel]
  exact ((List.filter_sublist m).map (fun u => u.id)).nodup h

theorem eq_of_mem_of_id_eq {m : List User} (h : (ids m).Nodup) {u v : User}
    (hu : u ∈ m) (hv : v ∈ m) (hid : u.id = v.id) : u = v :=
  List.inj_on_of_nodup_map (by simpa [ids] using h) hu hv hid

theorem mget_eq_of_mem {m : List User} (h : (ids m).Nodup) {u : User} (hu : u ∈ m) :
    mget m u.id = some u := by
  have hs : mhas m u.id = true := mhas_iff.mpr ⟨u, hu, rfl⟩
  obtain ⟨w, hw⟩ := Option.isSome_iff_exists.mp hs
  obtain ⟨hwm, hwid⟩ := mget_eq_some hw
  rw [hw, eq_of_mem_of_id_eq h hwm hu hwid]

theorem mset_eq_self {m : List User} {i : Nat} {u : User} (h : (ids m).Nodup)
    (hg : mget m i = some u) : mset m i u = m := by
  have hh : mhas m i = true := by rw [mhas, hg]; rfl
  obtain ⟨hum, hui⟩ := mget_eq_some hg
  rw [mset, if_pos hh]
  have : m.map (fun v => if v.id == i then u else v) = m.map id := by
    apply List.map_congr_left
    intro v hv
    by_cases hvi : v.id = i
    · rw [if_pos (by simpa using hvi), id]
      exact (eq_of_mem_of_id_eq h hum hv (by rw [hui, hvi])).symm ▸ rfl
    · rw [if_neg (by simpa using hvi)]
      rfl
  rw [this, List.map_id]

theorem mset_mset {m : List User} {i : Nat} {a u : User} (ha : a.id = i)
    (hh : mhas m i = true) : mset (mset m i a) i u = mset m i u := by
  have hh2 : mhas (mset m i a) i = true := by
    rw [mhas, mget_mset_self ha]
    rfl
  rw [mset, if_pos hh2]
  conv_lhs => rw [mset, if_pos hh]
  rw [mset, if_pos hh, List.map_map]
  apply List.map_congr_left
  intro v _
  by_cases hvi : v.id = i
  · simp [hvi, ha]
  · simp [hvi]

/-! ### Handler equation lemmas

Each handler is reduced once per control-flow case, so that later proofs
can rewrite with clean equations instead of unfolding matches in place. -/

theorem onConnection_eq (s : ServerState) (sid : Nat) :
    onConnection s sid =
      ({ connectedUsers := mset s.connectedUsers sid ⟨sid, false, none⟩, busUser := s.busUser },
       [{ recipients := [sid],
          payload := .usersList (mset s.connectedUsers sid ⟨sid, false, none⟩) s.busUser }]) :=
  rfl

theorem onSendLocation_known {s : ServerState} {sid : Nat} {u : User} (d : LocData)
    (hu : mget s.connectedUsers sid = some u) :
    onSendLocation s sid d =
      ({ connectedUsers := mset s.connectedUsers sid { u with location := some d },
         busUser := s.busUser },
       [{ recipients := ids (mset s.connectedUsers sid { u with location := some d }),
          payload := .receiveLocation sid u.isBus d }]) := by
  simp [onSendLocation, hu]

theorem onSendLocation_unknown {s : ServerState} {sid : Nat} (d : LocData)
    (hu : mget s.connectedUsers sid = none) :
    onSendLocation s sid d =
      (s, [{ recipients := ids s.connectedUsers,
             payload := .receiveLocation sid false d }]) := by
  simp [onSendLocation, hu]

theorem onSetAsBus_noBus_known {s : ServerState} {sid : Nat} {u : User}
    (hb : s.busUser = none) (hu : mget s.connectedUsers sid = some u) :
    onSetAsBus s sid =
      ({ connectedUsers := mset s.connectedUsers sid { u with isBus := true },
         busUser := some { u with isBus := true } },
       [{ recipients := [sid], payload := .busStatusChanged true },
        { recipients := ids (mset s.connectedUsers sid { u with isBus := true }),
          payload := .busUserChanged (some sid) (some { u with isBus := true }) }]) := by
  simp [onSetAsBus, hb, hu]

theorem onSetAsBus_prevBus_known {s : ServerState} {sid : Nat} {b w u1 : User}
    (hb : s.busUser = some b)
    (hgw : mget s.connectedUsers b.id = some w)
    (hu1 : mget (mset s.connectedUsers b.id { w with isBus := false }) sid = some u1) :
    onSetAsBus s sid =
      ({ connectedUsers := mset (mset s.connectedUsers b.id { w with isBus := false }) sid
           { u1 with isBus := true },
         busUser := some { u1 with isBus := true } },
       [{ recipients := [b.id], payload := .busStatusChanged false },
        { recipients := [sid], payload := .busStatusChanged true },
        { recipients := ids (mset (mset s.connectedUsers b.id { w with isBus := false }) sid
            { u1 with isBus := true }),
          payload := .busUserChanged (some sid) (some { u1 with isBus := true }) }]) := by
  have hhb : mhas s.connectedUsers b.id = true := by rw [mhas, hgw]; rfl
  simp [onSetAsBus, hb, hhb, hgw, hu1]

theorem onRemoveBus_noBus {s : ServerState} {sid : Nat} (hb : s.busUser = none) :
    onRemoveBus s sid = (s, []) := by
  simp [onRemoveBus, hb]

theorem onRemoveBus_otherBus {s : ServerState} {sid : Nat} {b : User}
    (hb : s.busUser = some b) (hne : b.id ≠ sid) :
    onRemoveBus s sid = (s, []) := by
  simp [onRemoveBus, hb, hne]

theorem onRemoveBus_self {s : ServerState} {sid : Nat} {b u : User}
    (hb : s.busUser = some b) (hid : b.id = sid)
    (hu : mget s.connectedUsers sid = some u) :
    onRemoveBus s sid =
      ({ connectedUsers := mset s.connectedUsers sid { u with isBus := false },
         busUser := none },
       [{ recipients := ids (mset s.connectedUsers sid { u with isBus := false }),
          payload := .busUserChanged none none },
        { recipients := [sid], payload := .busStatusChanged false }]) := by
  simp [onRemoveBus, hb, hid, hu]

theorem onDisconnect_notBus {s : ServerState} {sid : Nat}
    (h : ∀ b : User, s.busUser = some b → b.id ≠ sid) :
    onDisconnect s sid =
      ({ connectedUsers := mdel s.connectedUsers sid, busUser := s.busUser },
       [{ recipients := ids (mdel s.connectedUsers sid),
          payload := .userDisconnected sid }]) := by
  cases hb : s.busUser with
  | none => simp [onDisconnect, hb]
  | some b => simp [onDisconnect, hb, h b hb]

theorem onDisconnect_bus {s : ServerState} {sid : Nat} {b : User}
    (hb : s.busUser = some b) (hid : b.id = sid) :
    onDisconnect s sid =
      ({ connectedUsers := mdel s.connectedUsers sid, busUser := none },
       [{ recipients := ids s.connectedUsers, payload := .busUserChanged none none },
        { recipients := ids (mdel s.connectedUsers sid),
          payload := .userDisconnected sid }]) := by
  simp [onDisconnect, hb, hid]

/-! ### Invariant preservation -/

theorem inv_onConnection {s : ServerState} {sid : Nat} (hInv : Inv s)
    (h : mhas s.connectedUsers sid = false) : Inv (onConnection s sid).1 := by
  obtain ⟨hnd, hbus⟩ := hInv
  rw [onConnection_eq]
  have hmem : ∀ v : User, v ∈ mset s.connectedUsers sid ⟨sid, false, none⟩ ↔
      v ∈ s.connectedUsers ∨ v = ⟨sid, false, none⟩ := fun v => mem_mset_of_not_mhas h
  refine ⟨?_, ?_⟩
  · show (ids (mset s.connectedUsers sid ⟨sid, false, none⟩)).Nodup
    rw [ids_mset_of_not_mhas h, List.nodup_append]
    refine ⟨hnd, List.nodup_singleton _, fun x hx hx1 => ?_⟩
    have hxs : x = sid := by simpa using hx1
    subst hxs
    have hcontra : mhas s.connectedUsers x = true := mhas_eq_mem_ids.mpr hx
    rw [h] at hcontra
    exact absurd hcontra (by decide)
  · show busOk (mset s.connectedUsers sid ⟨sid, false, none⟩) s.busUser
    cases hb : s.busUser with
    | none =>
      rw [hb] at hbus
      intro v hv
      rcases (hmem v).mp hv with hvm | rfl
      · exact hbus v hvm
      · rfl
    | some b =>
      rw [hb] at hbus
      obtain ⟨⟨w, hw, hwid, hwb⟩, huniq⟩ := hbus
      refine ⟨⟨w, (hmem w).mpr (Or.inl hw), hwid, hwb⟩, fun v hv hvb => ?_⟩
      rcases (hmem v).mp hv with hvm | rfl
      · exact huniq v hvm hvb
      · simp at hvb

theorem inv_onSendLocation {s : ServerState} {sid : Nat} {d : LocData} (hInv : Inv s) :
    Inv (onSendLocation s sid d).1 := by
  obtain ⟨hnd, hbus⟩ := hInv
  cases hg : mget s.connectedUsers sid with
  | none =>
    rw [onSendLocation_unknown d hg]
    exact ⟨hnd, hbus⟩
  | some u =>
    obtain ⟨hum, huid⟩ := mget_eq_some hg
    have huid2 : ({ u with location := some d } : User).id = sid := huid
    have hh : mhas s.connectedUsers sid = true := by rw [mhas, hg]; rfl
    rw [onSendLocation_known d hg]
    refine ⟨?_, ?_⟩
    · show (ids (mset s.connectedUsers sid { u with location := some d })).Nodup
      rw [ids_mset_of_mhas huid2 hh]
      exact hnd
    · show busOk (mset s.connectedUsers sid { u with location := some d }) s.busUser
      cases hb : s.busUser with
      | none =>
        rw [hb] at hbus
        intro v hv
        rcases mem_mset hh hv with rfl | ⟨hvm, _⟩
        · exact hbus u hum
        · exact hbus v hvm
      | some b =>
        rw [hb] at hbus
        obtain ⟨⟨w, hw, hwid, hwb⟩, huniq⟩ := hbus
        refine ⟨?_, fun v hv hvb => ?_⟩
        · by_cases hws : w.id = sid
          · have hgw : mget s.connectedUsers sid = some w := by
              have := mget_eq_of_mem hnd hw
              rwa [hws] at this
            rw [hg] at hgw
            cases hgw
            exact ⟨{ u with location := some d }, self_mem_mset huid2, hwid, hwb⟩
          · exact ⟨w, mem_mset_of_ne hw hws, hwid, hwb⟩
        · rcases mem_mset hh hv with rfl | ⟨hvm, _⟩
          · exact huniq u hum hvb
          · exact huniq v hvm hvb

theorem inv_onSetAsBus {s : ServerState} {sid : Nat} (hInv : Inv s)
    (h : mhas s.connectedUsers sid = true) : Inv (onSetAsBus s sid).1 := by
  obtain ⟨hnd, hbus⟩ := hInv
  cases hb : s.busUser with
  | none =>
    rw [hb] at hbus
    obtain ⟨u, hu⟩ := Option.isSome_iff_exists.mp h
    obtain ⟨hum, huid⟩ := mget_eq_some hu
    have huid2 : ({ u with isBus := true } : User).id = sid := huid
    rw [onSetAsBus_noBus_known hb hu]
    refine ⟨?_, ?_⟩
    · show (ids (mset s.connectedUsers sid { u with isBus := true })).Nodup
      rw [ids_mset_of_mhas huid2 h]
      exact hnd
    · show busOk (mset s.connectedUsers sid { u with isBus := true })
        (some { u with isBus := true })
      refine ⟨⟨{ u with isBus := true }, self_mem_mset huid2, rfl, rfl⟩, fun v hv hvb => ?_⟩
      rcases mem_mset h hv with rfl | ⟨hvm, _⟩
      · rfl
      · exact absurd hvb (by simp [hbus v hvm])
  | some b =>
    rw [hb] at hbus
    obtain ⟨⟨w, hw, hwid, hwb⟩, huniq⟩ := hbus
    have hhb : mhas s.connectedUsers b.id = true := mhas_iff.mpr ⟨w, hw, hwid⟩
    have hgw : mget s.connectedUsers b.id = some w := by
      have := mget_eq_of_mem hnd hw
      rwa [hwid] at this
    have hwid2 : ({ w with isBus := false } : User).id = b.id := hwid
    have hm1 : mhas (mset s.connectedUsers b.id { w with isBus := false }) sid = true := by
      rw [mhas_eq_mem_ids, ids_mset_of_mhas hwid2 hhb, ← mhas_eq_mem_ids]
      exact h
    obtain ⟨u1, hu1⟩ := Option.isSome_iff_exists.mp hm1
    obtain ⟨hu1m, hu1id⟩ := mget_eq_some hu1
    have hu1id2 : ({ u1 with isBus := true } : User).id = sid := hu1id
    rw [onSetAsBus_prevBus_known hb hgw hu1]
    refine ⟨?_, ?_⟩
    · show (ids (mset (mset s.connectedUsers b.id { w with isBus := false }) sid
        { u1 with isBus := true })).Nodup
      rw [ids_mset_of_mhas hu1id2 hm1, ids_mset_of_mhas hwid2 hhb]
      exact hnd
    · show busOk (mset (mset s.connectedUsers b.id { w with isBus := false }) sid
        { u1 with isBus := true }) (some { u1 with isBus := true })
      refine ⟨⟨{ u1 with isBus := true }, self_mem_mset hu1id2, rfl, rfl⟩,
        fun v hv hvb => ?_⟩
      rcases mem_mset hm1 hv with rfl | ⟨hvm, hvne⟩
      · rfl
      · rcases mem_mset hhb hvm with rfl | ⟨hvm2, hvne2⟩
        · simp at hvb
        · exact absurd (huniq v hvm2 hvb) hvne2

theorem inv_onRemoveBus {s : ServerState} {sid : Nat} (hInv : Inv s) :
    Inv (onRemoveBus s sid).1 := by
  obtain ⟨hnd, hbus⟩ := hInv
  cases hb : s.busUser with
  | none =>
    rw [onRemoveBus_noBus hb]
    exact ⟨hnd, hbus⟩
  | some b =>
    rw [hb] at hbus
    obtain ⟨⟨w, hw, hwid, hwb⟩, huniq⟩ := hbus
    by_cases hbid : b.id = sid
    · have hgw : mget s.connectedUsers sid = some w := by
        have := mget_eq_of_mem hnd hw
        rwa [hwid, hbid] at this
      have hh : mhas s.connectedUsers sid = true := by rw [mhas, hgw]; rfl
      have hwid2 : ({ w with isBus := false } : User).id = sid := by
        show w.id = sid
        rw [hwid, hbid]
      rw [onRemoveBus_self hb hbid hgw]
      refine ⟨?_, ?_⟩
      · show (ids (mset s.connectedUsers sid { w with isBus := false })).Nodup
        rw [ids_mset_of_mhas hwid2 hh]
        exact hnd
      · show busOk (mset s.connectedUsers sid { w with isBus := false })
          (none : Option User)
        intro v hv
        rcases mem_mset hh hv with rfl | ⟨hvm, hvne⟩
        · rfl
        · cases hvb : v.isBus
          · rfl
          · exact absurd (huniq v hvm hvb) (by rw [hbid]; exact hvne)
    · rw [onRemoveBus_otherBus hb hbid]
      exact ⟨hnd, hb ▸ (⟨⟨w, hw, hwid, hwb⟩, huniq⟩ : busOk s.connectedUsers (some b))⟩

theorem inv_onDisconnect {s : ServerState} {sid : Nat} (hInv : Inv s) :
    Inv (onDisconnect s sid).1 := by
  obtain ⟨hnd, hbus⟩ := hInv
  cases hb : s.busUser with
  | none =>
    rw [hb] at hbus
    rw [onDisconnect_notBus (fun b hbb => by rw [hb] at hbb; cases hbb)]
    refine ⟨nodup_ids_mdel hnd, ?_⟩
    show busOk (mdel s.connectedUsers sid) s.busUser
    rw [hb]
    intro v hv
    exact hbus v (mem_mdel.mp hv).1
  | some b =>
    rw [hb] at hbus
    obtain ⟨⟨w, hw, hwid, hwb⟩, huniq⟩ := hbus
    by_cases hbid : b.id = sid
    · rw [onDisconnect_bus hb hbid]
      refine ⟨nodup_ids_mdel hnd, ?_⟩
      intro v hv
      obtain ⟨hvm, hvne⟩ := mem_mdel.mp hv
      cases hvb : v.isBus
      · rfl
      · exact absurd (huniq v hvm hvb) (by rw [hbid]; exact hvne)
    · rw [onDisconnect_notBus (fun b2 hbb => by
        rw [hb] at hbb
        cases hbb
        exact hbid)]
      refine ⟨nodup_ids_mdel hnd, ?_⟩
      show busOk (mdel s.connectedUsers sid) s.busUser
      rw [hb]
      refine ⟨⟨w, mem_mdel.mpr ⟨hw, by rw [hwid]; exact hbid⟩, hwid, hwb⟩,
        fun v hv hvb => huniq v (mem_mdel.mp hv).1 hvb⟩
theorem inv_initState : Inv initState := by
  refine ⟨List.nodup_nil, ?_⟩
  intro v hv
  cases hv

theorem inv_step {s : ServerState} {e : Event} (hInv : Inv s)
    (hp : permitted s e = true) : Inv (handle s e).1 := by
  cases e with
  | connect sid => exact inv_onConnection hInv (by simpa [permitted] using hp)
  | sendLocation sid d => exact inv_onSendLocation hInv
  | setAsBus sid => exact inv_onSetAsBus hInv (by simpa [permitted] using hp)
  | removeBus sid => exact inv_onRemoveBus hInv
  | disconnect sid => exact inv_onDisconnect hInv

/-- Every reachable server state satisfies the bus invariant. -/
theorem inv_of_reachable {s : ServerState} (h : Reachable s) : Inv s := by
  induction h with
  | init => exact inv_initState
  | step hr hp ih => exact inv_step ih hp

/-! ### Claim theorems -/

/-- C2: for every state reachable by any sequence of events (promote, demote,
disconnect, and the others), at most one registered connection has its role
flag set to bus at every observation point between event handlers. -/
theorem C2_at_most_one_bus {s : ServerState} (h : Reachable s) :
    (s.connectedUsers.filter (fun w => w.isBus)).length ≤ 1 := by
  obtain ⟨hnd, hbus⟩ := inv_of_reachable h
  have hall : ∀ u ∈ s.connectedUsers.filter (fun w => w.isBus),
      ∀ v ∈ s.connectedUsers.filter (fun w => w.isBus), u = v := by
    intro u hu v hv
    simp only [List.mem_filter] at hu hv
    obtain ⟨hum, hub⟩ := hu
    obtain ⟨hvm, hvb⟩ := hv
    cases hb : s.busUser with
    | none =>
      rw [hb] at hbus
      rw [hbus u hum] at hub
      exact absurd hub (by decide)
    | some b =>
      rw [hb] at hbus
      exact eq_of_mem_of_id_eq hnd hum hvm (by rw [hbus.2 u hum hub, hbus.2 v hvm hvb])
  have hndf : (s.connectedUsers.filter (fun w => w.isBus)).Nodup :=
    (List.Nodup.of_map _ hnd).filter _
  cases hlf : s.connectedUsers.filter (fun w => w.isBus) with
  | nil => simp
  | cons a t =>
    cases t with
    | nil => simp
    | cons b t2 =>
      rw [hlf] at hall hndf
      have hab : a = b := hall a (List.mem_cons_self _ _)
        b (List.mem_cons_of_mem _ (List.mem_cons_self _ _))
      subst hab
      rw [List.nodup_cons] at hndf
      exact absurd (List.mem_cons_self _ _) hndf.1

/-- C2 witness: the bound holds in the concrete reachable state where 0
and 1 connected, 0 was promoted, then 1 took the role over. -/
theorem C2_at_most_one_bus_witness :
    (handoffState.connectedUsers.filter (fun w => w.isBus)).length ≤ 1 :=
  C2_at_most_one_bus (reachable_execFrom Reachable.init _ (by decide))

/-- C3: in every reachable state, if the bus designation is set then the
connection it references exists in the registry and has role = bus. -/
theorem C3_designation_references_live_bus {s : ServerState} (h : Reachable s)
    {b : User} (hb : s.busUser = some b) :
    ∃ u ∈ s.connectedUsers, u.id = b.id ∧ u.isBus = true := by
  obtain ⟨hnd, hbus⟩ := inv_of_reachable h
  rw [hb] at hbus
  exact hbus.1

/-- C3 witness: in the reachable state after the promotion hand-off, the
designation references connection 1, which is registered with role bus. -/
theorem C3_designation_references_live_bus_witness :
    ∃ u ∈ handoffState.connectedUsers, u.id = (User.mk 1 true none).id ∧ u.isBus = true :=
  C3_designation_references_live_bus
    (reachable_execFrom Reachable.init _ (by decide)) (by decide)

/-- C5: if the connection currently referenced by the bus designation
disconnects, afterwards the designation is none, the connection's registry
entry is removed, and every remaining connection is among the recipients of
a broadcast announcing that no bus is designated. -/
theorem C5_disconnect_clears_bus (s : ServerState) {b : User}
    (hb : s.busUser = some b) :
    (onDisconnect s b.id).1.busUser = none ∧
    mget (onDisconnect s b.id).1.connectedUsers b.id = none ∧
    ∃ msg ∈ (onDisconnect s b.id).2,
      msg.payload = .busUserChanged none none ∧
      ∀ u ∈ (onDisconnect s b.id).1.connectedUsers, u.id ∈ msg.recipients := by
  rw [onDisconnect_bus hb rfl]
  refine ⟨rfl, mget_mdel_self, ?_⟩
  refine ⟨_, List.mem_cons_self _ _, rfl, ?_⟩
  intro u hu
  exact mem_ids.mpr ⟨u, (mem_mdel.mp hu).1, rfl⟩

/-- C5 witness: the designated bus 0 disconnects from the two-user state. -/
theorem C5_disconnect_clears_bus_witness :
    (onDisconnect twoUsersBus0 (User.mk 0 true none).id).1.busUser = none ∧
    mget (onDisconnect twoUsersBus0 (User.mk 0 true none).id).1.connectedUsers
      (User.mk 0 true none).id = none ∧
    ∃ msg ∈ (onDisconnect twoUsersBus0 (User.mk 0 true none).id).2,
      msg.payload = .busUserChanged none none ∧
      ∀ u ∈ (onDisconnect twoUsersBus0 (User.mk 0 true none).id).1.connectedUsers,
        u.id ∈ msg.recipients :=
  C5_disconnect_clears_bus twoUsersBus0 rfl

/-- C8: a newly connecting client is registered and then sent exactly one
snapshot message, whose user list contains every previously registered
connection and the new client itself, and whose bus field is the current
designation (none when no bus is designated). -/
theorem C8_snapshot_complete (s : ServerState) (sid : Nat)
    (h : mhas s.connectedUsers sid = false) :
    (onConnection s sid).2 =
      [{ recipients := [sid],
         payload := .usersList (onConnection s sid).1.connectedUsers s.busUser }] ∧
    (∀ u ∈ s.connectedUsers, u ∈ (onConnection s sid).1.connectedUsers) ∧
    (⟨sid, false, none⟩ : User) ∈ (onConnection s sid).1.connectedUsers ∧
    (onConnection s sid).1.busUser = s.busUser := by
  rw [onConnection_eq]
  refine ⟨rfl, ?_, ?_, rfl⟩
  · intro u hu
    exact (mem_mset_of_not_mhas h).mpr (Or.inl hu)
  · exact (mem_mset_of_not_mhas h).mpr (Or.inr rfl)

/-- C8 witness: client 2 connects while 0 is the designated bus and 1 is a
rider. -/
theorem C8_snapshot_complete_witness :
    (onConnection twoUsersBus0 2).2 =
      [{ recipients := [2],
         payload := .usersList (onConnection twoUsersBus0 2).1.connectedUsers
           twoUsersBus0.busUser }] ∧
    (∀ u ∈ twoUsersBus0.connectedUsers, u ∈ (onConnection twoUsersBus0 2).1.connectedUsers) ∧
    (⟨2, false, none⟩ : User) ∈ (onConnection twoUsersBus0 2).1.connectedUsers ∧
    (onConnection twoUsersBus0 2).1.busUser = twoUsersBus0.busUser :=
  C8_snapshot_complete twoUsersBus0 2 (by decide)

/-- C10: a demote (remove-bus) request from a connection id that is not the
currently designated bus leaves the whole state unchanged and sends no
message at all. -/
theorem C10_demote_nonbus_noop (s : ServerState) (sid : Nat)
    (h : ∀ b : User, s.busUser = some b → b.id ≠ sid) :
    onRemoveBus s sid = (s, []) := by
  cases hb : s.busUser with
  | none => exact onRemoveBus_noBus hb
  | some b => exact onRemoveBus_otherBus hb (h b hb)

/-- C10 witness: rider 1 sends remove-bus while 0 is the designated bus. -/
theorem C10_demote_nonbus_noop_witness :
    onRemoveBus twoUsersBus0 1 = (twoUsersBus0, []) :=
  C10_demote_nonbus_noop twoUsersBus0 1 (fun b hb => by
    injection hb with hb2
    rw [← hb2]
    decide)

/-- C1 counterexample: with connections 0 and 1 registered, connection 0's
location report produces a `receive-location` broadcast whose recipients
include the reporting connection 0 itself — the claimed "never to the
reporting client" is false (`io.emit`, src/app.js line 40, does not exclude
the sender). -/
theorem C1_counterexample :
    mget c1State.connectedUsers 0 = some ⟨0, false, none⟩ ∧
    ∃ msg ∈ (onSendLocation c1State 0 ⟨some 3, some 4⟩).2,
      msg.payload = .receiveLocation 0 false ⟨some 3, some 4⟩ ∧ 0 ∈ msg.recipients := by
  decide

/-- C1 (amended): the location-broadcast produced by a registered
connection's report is addressed to every connected client — including the
reporting connection itself (there is no self-echo suppression). -/
theorem C1_broadcast_includes_sender (s : ServerState) (sid : Nat) (d : LocData)
    (h : mhas s.connectedUsers sid = true) :
    ∃ msg ∈ (onSendLocation s sid d).2,
      (∃ r : Bool, msg.payload = .receiveLocation sid r d) ∧
      (∀ u ∈ s.connectedUsers, u.id ∈ msg.recipients) ∧ sid ∈ msg.recipients := by
  obtain ⟨u, hu⟩ := Option.isSome_iff_exists.mp h
  obtain ⟨hum, huid⟩ := mget_eq_some hu
  have huid2 : ({ u with location := some d } : User).id = sid := huid
  rw [onSendLocation_known d hu]
  refine ⟨_, List.mem_cons_self _ _, ⟨u.isBus, rfl⟩, ?_, ?_⟩
  · intro v hv
    rw [ids_mset_of_mhas huid2 h]
    exact mem_ids.mpr ⟨v, hv, rfl⟩
  · rw [ids_mset_of_mhas huid2 h]
    exact mhas_eq_mem_ids.mp h

/-- C1 amended witness: connection 0 reports in the two-rider state. -/
theorem C1_broadcast_includes_sender_witness :
    ∃ msg ∈ (onSendLocation c1State 0 ⟨some 3, some 4⟩).2,
      (∃ r : Bool, msg.payload = .receiveLocation 0 r ⟨some 3, some 4⟩) ∧
      (∀ u ∈ c1State.connectedUsers, u.id ∈ msg.recipients) ∧ 0 ∈ msg.recipients :=
  C1_broadcast_includes_sender c1State 0 ⟨some 3, some 4⟩ (by decide)

/-- C6 counterexample: a location report from registered connection 0 whose
payload has no numeric coordinates is not dropped — the sender's registry
entry is mutated and a `receive-location` broadcast is still emitted
(src/app.js lines 34-45 perform no payload validation). -/
theorem C6_counterexample :
    LocData.hasNumericCoords ⟨none, none⟩ = false ∧
    mget c1State.connectedUsers 0 = some ⟨0, false, none⟩ ∧
    mget (onSendLocation c1State 0 ⟨none, none⟩).1.connectedUsers 0 =
      some ⟨0, false, some ⟨none, none⟩⟩ ∧
    (onSendLocation c1State 0 ⟨none, none⟩).2 =
      [{ recipients := [0, 1], payload := .receiveLocation 0 false ⟨none, none⟩ }] := by
  decide

/-- C6 (amended): a location report from a registered sender whose payload
is missing numeric coordinates is processed like any other report: the raw
payload is stored as the sender's location and a `receive-location` event
carrying it is broadcast to every connected client. -/
theorem C6_malformed_report_processed (s : ServerState) (sid : Nat) {u : User}
    (d : LocData) (_hmal : d.hasNumericCoords = false)
    (hu : mget s.connectedUsers sid = some u) :
    mget (onSendLocation s sid d).1.connectedUsers sid =
      some { u with location := some d } ∧
    ∃ msg ∈ (onSendLocation s sid d).2,
      msg.payload = .receiveLocation sid u.isBus d ∧
      ∀ v ∈ s.connectedUsers, v.id ∈ msg.recipients := by
  obtain ⟨hum, huid⟩ := mget_eq_some hu
  have huid2 : ({ u with location := some d } : User).id = sid := huid
  have hh : mhas s.connectedUsers sid = true := by rw [mhas, hu]; rfl
  rw [onSendLocation_known d hu]
  refine ⟨mget_mset_self huid2, _, List.mem_cons_self _ _, rfl, ?_⟩
  intro v hv
  rw [ids_mset_of_mhas huid2 hh]
  exact mem_ids.mpr ⟨v, hv, rfl⟩

/-- C6 amended witness: connection 0 sends a payload with a missing
latitude. -/
theorem C6_malformed_report_processed_witness :
    mget (onSendLocation c1State 0 ⟨none, some 2⟩).1.connectedUsers 0 =
      some ⟨0, false, some ⟨none, some 2⟩⟩ ∧
    ∃ msg ∈ (onSendLocation c1State 0 ⟨none, some 2⟩).2,
      msg.payload = .receiveLocation 0 false ⟨none, some 2⟩ ∧
      ∀ v ∈ c1State.connectedUsers, v.id ∈ msg.recipients :=
  C6_malformed_report_processed c1State 0 ⟨none, some 2⟩ (by decide) rfl

/-- C7 counterexample: a location report whose sender id 5 is not in the
registry leaves the state unchanged but is *not* silent — a
`receive-location` broadcast with `isBus = false` still goes to every
connected client (the `io.emit` of src/app.js lines 40-44 sits outside the
registry-lookup guard). -/
theorem C7_counterexample :
    mget c1State.connectedUsers 5 = none ∧
    (onSendLocation c1State 5 ⟨some 1, some 2⟩).2 =
      [{ recipients := [0, 1], payload := .receiveLocation 5 false ⟨some 1, some 2⟩ }] := by
  decide

/-- C7 (amended): a location report from an unknown sender id causes no
registry mutation, but a `receive-location` event carrying the unknown id,
`isBus = false` and the raw payload is still broadcast to every connected
client. -/
theorem C7_unknown_sender_broadcasts (s : ServerState) (sid : Nat) (d : LocData)
    (hu : mget s.connectedUsers sid = none) :
    (onSendLocation s sid d).1 = s ∧
    (onSendLocation s sid d).2 =
      [{ recipients := ids s.connectedUsers, payload := .receiveLocation sid false d }] := by
  rw [onSendLocation_unknown d hu]
  exact ⟨rfl, rfl⟩

/-- C7 amended witness: unknown id 7 reports into the two-user bus state. -/
theorem C7_unknown_sender_broadcasts_witness :
    (onSendLocation twoUsersBus0 7 ⟨some 3, none⟩).1 = twoUsersBus0 ∧
    (onSendLocation twoUsersBus0 7 ⟨some 3, none⟩).2 =
      [{ recipients := ids twoUsersBus0.connectedUsers,
         payload := .receiveLocation 7 false ⟨some 3, none⟩ }] :=
  C7_unknown_sender_broadcasts twoUsersBus0 7 ⟨some 3, none⟩ (by decide)

/-- C4: if registered connection A holds the bus role and a different
registered connection B requests promotion, then afterwards A's entry has
role rider, A is sent the demotion notice, B's entry has role bus, the
designation points at B, and every connection is among the recipients of
the new-designation broadcast. -/
theorem C4_promotion_displacement {s : ServerState} {A B : User}
    (hInv : Inv s) (hA : A ∈ s.connectedUsers) (hAbus : A.isBus = true)
    (hB : B ∈ s.connectedUsers) (hne : B.id ≠ A.id) :
    mget (onSetAsBus s B.id).1.connectedUsers A.id = some { A with isBus := false } ∧
    ({ recipients := [A.id], payload := .busStatusChanged false } : Msg)
        ∈ (onSetAsBus s B.id).2 ∧
    mget (onSetAsBus s B.id).1.connectedUsers B.id = some { B with isBus := true } ∧
    (onSetAsBus s B.id).1.busUser = some { B with isBus := true } ∧
    ∃ msg ∈ (onSetAsBus s B.id).2,
      msg.payload = .busUserChanged (some B.id) (some { B with isBus := true }) ∧
      ∀ u ∈ s.connectedUsers, u.id ∈ msg.recipients := by
  obtain ⟨hnd, hbus⟩ := hInv
  cases hb : s.busUser with
  | none =>
    rw [hb] at hbus
    rw [hbus A hA] at hAbus
    exact absurd hAbus (by decide)
  | some b =>
    rw [hb] at hbus
    have hAid : A.id = b.id := hbus.2 A hA hAbus
    have hgw : mget s.connectedUsers b.id = some A := by
      have := mget_eq_of_mem hnd hA
      rwa [hAid] at this
    have hAid2 : ({ A with isBus := false } : User).id = b.id := hAid
    have hBne : B.id ≠ b.id := fun hh => hne (by rw [hh, hAid])
    have hu1 : mget (mset s.connectedUsers b.id { A with isBus := false }) B.id = some B := by
      rw [mget_mset_ne hAid2 hBne]
      exact mget_eq_of_mem hnd hB
    have hBid2 : ({ B with isBus := true } : User).id = B.id := rfl
    have hhb : mhas s.connectedUsers b.id = true := by rw [mhas, hgw]; rfl
    have hm1 : mhas (mset s.connectedUsers b.id { A with isBus := false }) B.id = true := by
      rw [mhas, hu1]; rfl
    rw [onSetAsBus_prevBus_known hb hgw hu1]
    refine ⟨?_, ?_, ?_, rfl, ?_⟩
    · rw [hAid, mget_mset_ne hBid2 (Ne.symm hBne),
        mget_mset_self (show ({ id := b.id, isBus := false, location := A.location } : User).id
          = b.id from rfl)]
    · rw [hAid]
      exact List.mem_cons_self _ _
    · rw [mget_mset_self hBid2]
    · refine ⟨_, List.mem_cons_of_mem _ (List.mem_cons_of_mem _ (List.mem_cons_self _ _)),
        rfl, ?_⟩
      intro u hu
      rw [ids_mset_of_mhas hBid2 hm1, ids_mset_of_mhas hAid2 hhb]
      exact mem_ids.mpr ⟨u, hu, rfl⟩

/-- C4 witness: bus 0 is displaced when rider 1 requests promotion. -/
theorem C4_promotion_displacement_witness :
    mget (onSetAsBus twoUsersBus0 1).1.connectedUsers 0 = some ⟨0, false, none⟩ ∧
    ({ recipients := [0], payload := .busStatusChanged false } : Msg)
        ∈ (onSetAsBus twoUsersBus0 1).2 ∧
    mget (onSetAsBus twoUsersBus0 1).1.connectedUsers 1 = some ⟨1, true, none⟩ ∧
    (onSetAsBus twoUsersBus0 1).1.busUser = some ⟨1, true, none⟩ ∧
    ∃ msg ∈ (onSetAsBus twoUsersBus0 1).2,
      msg.payload = .busUserChanged (some 1) (some ⟨1, true, none⟩) ∧
      ∀ u ∈ twoUsersBus0.connectedUsers, u.id ∈ msg.recipients :=
  @C4_promotion_displacement twoUsersBus0 ⟨0, true, none⟩ ⟨1, false, none⟩
    (by decide) (by decide) rfl (by decide) (by decide)

/-- C9 counterexample: in the reachable state where connection 0 became bus
and then reported a location, 0's re-promotion request does *not* leave the
state equal to the state before the request: the `busUser` designation
object is replaced by a copy of 0's current registry record, whose location
differs from the stale snapshot stored at the first promotion. -/
theorem C9_counterexample :
    Reachable s9State ∧
    (s9State.busUser = some ⟨0, true, none⟩ ∧
     mget s9State.connectedUsers 0 = some ⟨0, true, some ⟨some 1, some 2⟩⟩ ∧
     (onSetAsBus s9State 0).1.busUser ≠ s9State.busUser) :=
  ⟨reachable_execFrom Reachable.init _ (by decide), by decide⟩

/-- C9 (amended): when the connection referenced by the designation
re-requests promotion, the registry is left unchanged, the designation still
references the same connection — though its stored snapshot is refreshed to
the connection's current registry record — and the designation is still
re-broadcast to every connection. -/
theorem C9_repromote_idempotent {s : ServerState} {b u : User}
    (hInv : Inv s) (hb : s.busUser = some b)
    (hu : mget s.connectedUsers b.id = some u) :
    (onSetAsBus s b.id).1.connectedUsers = s.connectedUsers ∧
    (onSetAsBus s b.id).1.busUser = some u ∧
    u.id = b.id ∧ u.isBus = true ∧
    ∃ msg ∈ (onSetAsBus s b.id).2,
      msg.payload = .busUserChanged (some b.id) (some u) ∧
      ∀ v ∈ s.connectedUsers, v.id ∈ msg.recipients := by
  obtain ⟨hnd, hbus⟩ := hInv
  rw [hb] at hbus
  obtain ⟨⟨w, hw, hwid, hwb⟩, huniq⟩ := hbus
  have hgw : mget s.connectedUsers b.id = some w := by
    have := mget_eq_of_mem hnd hw
    rwa [hwid] at this
  rw [hu] at hgw
  injection hgw with hgw2
  subst hgw2
  have hub : u.isBus = true := hwb
  have huid : u.id = b.id := hwid
  have hut : ({ u with isBus := true } : User) = u := by
    rw [← hub]
  have huf2 : ({ u with isBus := false } : User).id = b.id := huid
  have hup2 : ({ u with isBus := true } : User).id = b.id := huid
  have hhb : mhas s.connectedUsers b.id = true := by rw [mhas, hu]; rfl
  have hu1 : mget (mset s.connectedUsers b.id { u with isBus := false }) b.id =
      some { u with isBus := false } := mget_mset_self huf2
  have hm1 : mhas (mset s.connectedUsers b.id { u with isBus := false }) b.id = true := by
    rw [mhas, hu1]; rfl
  rw [onSetAsBus_prevBus_known hb hu hu1]
  refine ⟨?_, ?_, huid, hub, ?_⟩
  · show mset (mset s.connectedUsers b.id { u with isBus := false }) b.id
        { u with isBus := true } = s.connectedUsers
    rw [hut, mset_mset huf2 hhb, mset_eq_self hnd hu]
  · show (some { u with isBus := true } : Option User) = some u
    rw [hut]
  · refine ⟨_, List.mem_cons_of_mem _ (List.mem_cons_of_mem _ (List.mem_cons_self _ _)),
      ?_, ?_⟩
    · show Payload.busUserChanged (some b.id) (some { u with isBus := true }) =
        Payload.busUserChanged (some b.id) (some u)
      rw [hut]
    · intro v hv
      show v.id ∈ ids (mset (mset s.connectedUsers b.id { u with isBus := false })
        b.id { u with isBus := true })
      rw [ids_mset_of_mhas hup2 hm1, ids_mset_of_mhas huf2 hhb]
      exact mem_ids.mpr ⟨v, hv, rfl⟩

/-- C9 amended witness: re-promotion by bus 0 whose stored designation
snapshot is stale. -/
theorem C9_repromote_idempotent_witness :
    (onSetAsBus staleBusState 0).1.connectedUsers = staleBusState.connectedUsers ∧
    (onSetAsBus staleBusState 0).1.busUser = some ⟨0, true, some ⟨some 7, some 8⟩⟩ ∧
    (0 : Nat) = 0 ∧ true = true ∧
    ∃ msg ∈ (onSetAsBus staleBusState 0).2,
      msg.payload = .busUserChanged (some 0) (some ⟨0, true, some ⟨some 7, some 8⟩⟩) ∧
      ∀ v ∈ staleBusState.connectedUsers, v.id ∈ msg.recipients :=
  @C9_repromote_idempotent staleBusState ⟨0, true, none⟩ ⟨0, true, some ⟨some 7, some 8⟩⟩
    (by decide) rfl rfl

end RealtimeTracking
